import Mathlib

/-!
Verification of the log retention and compaction engine of
`erik-arr/init-claude-env` (`src/install.py`).

The engine consists of the `AgentLogger` event writer
(`log`, `_next_correlation_id`, `escalation`), the store index
(`get_log_stats`), the retention evaluator (`cleanup_logs` in the library
and `cleanup` in the standalone CLI), and the compaction evaluator
(`compact_old_sessions` in the library, `compact` in the CLI).

Modelling conventions:
* Python strings are sequences of code points, modelled as `List Char`.
* Python's string order is the lexicographic order on code points,
  modelled by `pyLt` / `pyLe`.
* `str.strip()` is modelled by `pyStrip` (ASCII whitespace).
* File sizes are byte counts in `Nat`; the byte limit
  `max_size_mb * 1024 * 1024` is passed directly as `maxSizeBytes`, and the
  hysteresis comparison `current <= max_size_bytes * 0.8` is modelled by the
  exact inequality `5 * current <= 4 * maxSizeBytes`.
* `json.loads` followed by extraction of the `evt` / `lvl` keys is a
  deterministic partial function on the line's text; it is modelled by an
  arbitrary `parse : List Char -> Option EvtLvl` parameter (a line that
  fails to parse yields `none`).
* Per-file deletion failures (`OSError` on `unlink`) are modelled by an
  oracle `failing : LFile -> Bool`.
-/

/-- Python string `<` (lexicographic comparison of code points). -/
def pyLt : List Char → List Char → Bool
  | [], [] => false
  | [], _ :: _ => true
  | _ :: _, [] => false
  | a :: as, b :: bs =>
      if a.toNat < b.toNat then true
      else if b.toNat < a.toNat then false
      else pyLt as bs

/-- Python string `<=`: in a total order `s <= t` iff `¬ t < s`. -/
def pyLe (s t : List Char) : Bool := !(pyLt t s)

/-- The whitespace characters removed by Python's `str.strip()`
(ASCII subset; log lines contain no exotic Unicode whitespace). -/
def isPyWS (c : Char) : Bool :=
  c == ' ' || c == '\t' || c == '\n' || c == '\r' ||
    c.toNat == 11 || c.toNat == 12

/-- Python `str.strip()`: remove leading and trailing whitespace. -/
def pyStrip (s : List Char) : List Char :=
  ((s.dropWhile isPyWS).reverse.dropWhile isPyWS).reverse

/-- Iterating a Python text file (`for line in f`) yields its lines; the
terminating `'\n'` of each line is dropped here (the source strips each
line, which removes it anyway), and no trailing empty line is produced
for a final newline, matching Python's iteration. -/
def linesOf : List Char → List (List Char)
  | [] => []
  | c :: cs =>
      if c = '\n' then [] :: linesOf cs
      else
        match linesOf cs with
        | [] => [[c]]
        | l :: ls => (c :: l) :: ls

/-- Python `"\n".join(lines)`. -/
def joinNl : List (List Char) → List Char
  | [] => []
  | [l] => l
  | l :: l2 :: ls => l ++ '\n' :: joinNl (l2 :: ls)

-- ## Compaction evaluator (`compact_old_sessions` in src/install.py)

/-- The `evt` and `lvl` fields extracted from one parsed JSONL record. -/
structure EvtLvl where
  evt : List Char
  lvl : List Char
deriving DecidableEq

/-- The fixed preserve-set of event types (`preserve_events` in
`compact_old_sessions`, identical to `keep_events` in the CLI `compact`). -/
def preserveEvents : List (List Char) :=
  ["decision.made".data, "escalation.raised".data, "handoff.initiated".data,
   "hook.session_start".data, "hook.session_end".data,
   "task.started".data, "task.completed".data, "context.compacted".data]

/-- The levels always kept: `lvl in ("error", "fatal", "warn")`. -/
def levelsKept : List (List Char) :=
  ["error".data, "fatal".data, "warn".data]

/-- `evt in preserve_events or lvl in ("error", "fatal", "warn")`. -/
def isPreserved (e : EvtLvl) : Bool :=
  decide (e.evt ∈ preserveEvents) || decide (e.lvl ∈ levelsKept)

/-- The per-line body of the compaction loop: strip the line, skip it if
blank, try to parse it, skip it if malformed, keep the stripped text iff
the record is preserved. -/
def keptFn (parse : List Char → Option EvtLvl) (line : List Char) :
    Option (List Char) :=
  if pyStrip line = [] then none
  else
    match parse (pyStrip line) with
    | none => none
    | some e => if isPreserved e then some (pyStrip line) else none

/-- `preserved_lines` accumulated over the lines of a file. -/
def keptLines (parse : List Char → Option EvtLvl) (lines : List (List Char)) :
    List (List Char) :=
  lines.filterMap (keptFn parse)

/-- One session file of the store: its date directory name, its filename
stem, and its byte content. -/
structure CFile where
  dateDir : List Char
  stem : List Char
  content : List Char
deriving DecidableEq

/-- The marker recognised by `log_file.stem.endswith("_compacted")`. -/
def compactedMarker : List Char := "_compacted".data

/-- Python `s.endswith(pat)`. -/
def endsWithCL (s pat : List Char) : Bool :=
  s.drop (s.length - pat.length) == pat

/-- The file content written by a compaction rewrite:
`"\n".join(preserved_lines) + "\n"`. -/
def compactedBody (kept : List (List Char)) : List Char :=
  joinNl kept ++ ['\n']

/-- The body of the `compact_old_sessions` loop for one file: skip recent
date directories (`date_dir >= cutoff_str`), skip files already carrying
the compacted marker, otherwise collect the preserved lines and — outside
a dry run and only when some line is preserved — rewrite the file.
Returns the resulting file, the increment of `compacted`, and the
increment of `saved_bytes` (`original_size - new_size`). -/
def compactFileStep (parse : List Char → Option EvtLvl) (cutoff : List Char)
    (dryRun : Bool) (f : CFile) : CFile × Nat × Int :=
  if pyLe cutoff f.dateDir then (f, 0, 0)
  else if endsWithCL f.stem compactedMarker then (f, 0, 0)
  else
    let kept := keptLines parse (linesOf f.content)
    if !dryRun && !kept.isEmpty then
      let newC := compactedBody kept
      (⟨f.dateDir, f.stem, newC⟩, 1, (f.content.length : Int) - (newC.length : Int))
    else (f, 0, 0)

/-- Result of a `compact_old_sessions` run: the store afterwards, the
`compacted_files` count and the `saved_bytes` total. -/
structure CompactResult where
  files : List CFile
  compacted : Nat
  saved : Int
deriving DecidableEq

/-- `compact_old_sessions` over a whole store (the order of `rglob` is
irrelevant: files are processed independently and the counters are sums). -/
def compactRun (parse : List Char → Option EvtLvl) (cutoff : List Char)
    (dryRun : Bool) (files : List CFile) : CompactResult :=
  ⟨files.map (fun f => (compactFileStep parse cutoff dryRun f).1),
   (files.map (fun f => (compactFileStep parse cutoff dryRun f).2.1)).sum,
   (files.map (fun f => (compactFileStep parse cutoff dryRun f).2.2)).sum⟩

-- ## Retention evaluator (`cleanup_logs` in the library, `cleanup` in the CLI)

/-- One `*.jsonl` file as seen by the retention pass: its date directory
name, its file name, its byte size (`stat().st_size`) and its modification
time (`stat().st_mtime`). Equality of two `LFile`s models equality of
paths; a real store never holds two files with the same path, which is the
`Nodup` hypothesis of the theorems below. -/
structure LFile where
  dateDir : List Char
  name : List Char
  size : Nat
  mtime : Nat
deriving DecidableEq

/-- The sort key of `sorted(log_dir.rglob("*.jsonl"), key=... st_mtime)`. -/
def byMtime (a b : LFile) : Prop := a.mtime ≤ b.mtime

instance : DecidableRel byMtime := fun a b => Nat.decLe a.mtime b.mtime

instance : IsTotal LFile byMtime := ⟨fun a b => Nat.le_total a.mtime b.mtime⟩

instance : IsTrans LFile byMtime := ⟨fun _ _ _ hab hbc => Nat.le_trans hab hbc⟩

/-- All log files sorted by modification time, oldest first (the order of
`rglob` itself is unspecified, so the model sorts an arbitrarily ordered
input list). -/
def sortByMtime (files : List LFile) : List LFile :=
  List.insertionSort byMtime files

/-- `[f for f in all_files if f not in marked]`. -/
def remainingAfter (marked : List LFile) (all : List LFile) : List LFile :=
  all.filter (fun f => !(marked.contains f))

/-- Stage 1 of both retention functions: mark every file whose date
directory name is lexicographically below the cutoff string. -/
def ageMarks (cutoff : List Char) (all : List LFile) : List LFile :=
  all.filter (fun f => pyLt f.dateDir cutoff)

/-- The size-stage loop shared by both retention functions: walk the
not-yet-marked files oldest first and mark files until the running total
is at most 80% of the byte limit (`current_size <= max_size_bytes * 0.8`,
here `5 * cur <= 4 * maxSizeBytes`). `cur` is always the byte total of
the files not yet visited plus the files never to be visited, so the
`Nat` subtraction never truncates when the loop is entered with
`cur = ` the byte total of `l`. -/
def sizeLoop (maxSizeBytes : Nat) : Nat → List LFile → List LFile
  | _, [] => []
  | cur, f :: rest =>
      if 5 * cur ≤ 4 * maxSizeBytes then []
      else f :: sizeLoop maxSizeBytes (cur - f.size) rest

/-- Stage 2 of the library `cleanup_logs`: the trigger compares the byte
total of ALL files — `total_size = sum(f.stat().st_size for f in
all_files)` — against the limit, while the loop then walks only the files
not marked by the age stage, starting from their (recomputed) total. -/
def logsSizeMarks (maxSizeBytes : Nat) (all d1 : List LFile) : List LFile :=
  if (all.map (·.size)).sum > maxSizeBytes then
    sizeLoop maxSizeBytes (((remainingAfter d1 all).map (·.size)).sum)
      (remainingAfter d1 all)
  else []

/-- Stage 2 of the CLI `cleanup`: the trigger compares the byte total of
the files REMAINING after the age stage — `total = sum(f.stat().st_size
for f in remaining)` — against the limit; the loop is the same. -/
def cliSizeMarks (maxSizeBytes : Nat) (all d1 : List LFile) : List LFile :=
  if (((remainingAfter d1 all).map (·.size)).sum) > maxSizeBytes then
    sizeLoop maxSizeBytes (((remainingAfter d1 all).map (·.size)).sum)
      (remainingAfter d1 all)
  else []

/-- Stage 3 of both retention functions: if more than `max_files` files
remain unmarked, mark the oldest `len(remaining) - int(max_files * 0.8)`
of them (`int(max_files * 0.8)` is the floor `maxFiles * 4 / 5`). -/
def countMarks (maxFiles : Nat) (all d12 : List LFile) : List LFile :=
  if (remainingAfter d12 all).length > maxFiles then
    (remainingAfter d12 all).take
      ((remainingAfter d12 all).length - maxFiles * 4 / 5)
  else []

/-- The candidate sets of the three stages of the library `cleanup_logs`
(the per-file reason strings "older than .. days" / "over size limit" /
"over file limit" correspond to the three components). -/
def cleanupLogsMarks (files : List LFile) (cutoff : List Char)
    (maxSizeBytes maxFiles : Nat) : List LFile × List LFile × List LFile :=
  (ageMarks cutoff (sortByMtime files),
   logsSizeMarks maxSizeBytes (sortByMtime files)
     (ageMarks cutoff (sortByMtime files)),
   countMarks maxFiles (sortByMtime files)
     (ageMarks cutoff (sortByMtime files) ++
      logsSizeMarks maxSizeBytes (sortByMtime files)
        (ageMarks cutoff (sortByMtime files))))

/-- The candidate sets of the three stages of the CLI `cleanup`. -/
def cleanupCliMarks (files : List LFile) (cutoff : List Char)
    (maxSizeBytes maxFiles : Nat) : List LFile × List LFile × List LFile :=
  (ageMarks cutoff (sortByMtime files),
   cliSizeMarks maxSizeBytes (sortByMtime files)
     (ageMarks cutoff (sortByMtime files)),
   countMarks maxFiles (sortByMtime files)
     (ageMarks cutoff (sortByMtime files) ++
      cliSizeMarks maxSizeBytes (sortByMtime files)
        (ageMarks cutoff (sortByMtime files))))

/-- The flat candidate list `files_to_delete` of the library pass. -/
def cleanupLogsCandidates (files : List LFile) (cutoff : List Char)
    (maxSizeBytes maxFiles : Nat) : List LFile :=
  (cleanupLogsMarks files cutoff maxSizeBytes maxFiles).1 ++
    ((cleanupLogsMarks files cutoff maxSizeBytes maxFiles).2.1 ++
      (cleanupLogsMarks files cutoff maxSizeBytes maxFiles).2.2)

/-- The deletion phase of `cleanup_logs`: `freed_bytes` is computed over
the whole candidate list before any deletion; in a dry run nothing is
removed and the candidate count is reported; otherwise each candidate is
unlinked individually, an `OSError` (modelled by the `failing` oracle)
skips that file without aborting the loop, and only successful unlinks
are counted in `deleted_files`. Returns (store afterwards,
`deleted_files`, `freed_bytes`). -/
def cleanupLogsRun (files : List LFile) (cutoff : List Char)
    (maxSizeBytes maxFiles : Nat) (dryRun : Bool) (failing : LFile → Bool) :
    List LFile × Nat × Nat :=
  if dryRun then
    (files,
     (cleanupLogsCandidates files cutoff maxSizeBytes maxFiles).length,
     ((cleanupLogsCandidates files cutoff maxSizeBytes maxFiles).map
       (·.size)).sum)
  else
    (files.filter (fun f =>
       !(((cleanupLogsCandidates files cutoff maxSizeBytes maxFiles).filter
            (fun g => !(failing g))).contains f)),
     ((cleanupLogsCandidates files cutoff maxSizeBytes maxFiles).filter
        (fun g => !(failing g))).length,
     ((cleanupLogsCandidates files cutoff maxSizeBytes maxFiles).map
       (·.size)).sum)

-- ## Store index (`get_log_stats` in the library)

/-- The dictionary returned by `get_log_stats`. `dates = none` models a
result dictionary that carries no `"dates"` key at all. -/
structure LogStats where
  totalFiles : Nat
  totalSizeBytes : Nat
  oldestDate : Option (List Char)
  newestDate : Option (List Char)
  dates : Option (List (List Char))
deriving DecidableEq

/-- `f.parent.name.startswith("20")`. -/
def startsWith20 (s : List Char) : Bool :=
  match s with
  | '2' :: '0' :: _ => true
  | _ => false

/-- The order used for `sorted(...)` over date strings. -/
def dateLe (s t : List Char) : Prop := pyLe s t = true

instance : DecidableRel dateLe := fun s t => instDecidableEqBool (pyLe s t) true

/-- `sorted(set(f.parent.name for f in files if f.parent.name.startswith("20")))`:
the distinct qualifying date-directory names in ascending order. -/
def sortedDates (files : List LFile) : List (List Char) :=
  List.insertionSort dateLe
    (((files.filter (fun f => startsWith20 f.dateDir)).map (·.dateDir)).dedup)

/-- `get_log_stats`: `none` models a store root that does not exist on
disk. The early return for a missing root is
`{"total_files": 0, "total_size_bytes": 0, "total_size_mb": 0.0,
"oldest_date": None, "newest_date": None}` — note that it carries no
`"dates"` key, unlike the normal return. -/
def getLogStats : Option (List LFile) → LogStats
  | none => ⟨0, 0, none, none, none⟩
  | some files =>
      ⟨files.length,
       (files.map (·.size)).sum,
       (sortedDates files).head?,
       (sortedDates files).getLast?,
       some (sortedDates files)⟩

-- ## Event writer (`AgentLogger`)

/-- `msg[:97] + "..." if len(msg) > 100 else msg` (the truncation in
`AgentLogger.log`). -/
def truncateMsg (msg : List Char) : List Char :=
  if 100 < msg.length then msg.take 97 ++ "...".data else msg

/-- `f"{n:03d}"`: the decimal digits of `n`, left-padded with `'0'` to a
minimum width of 3. -/
def pad3 (n : Nat) : List Char :=
  List.replicate (3 - (Nat.toDigits 10 n).length) '0' ++ Nat.toDigits 10 n

/-- `f"corr_{session_id}_{seq:03d}"`. -/
def mkCorrId (sid : List Char) (n : Nat) : List Char :=
  "corr_".data ++ sid ++ "_".data ++ pad3 n

/-- `AgentLogger._next_correlation_id`: increment the in-memory counter
and format it. Returns the id together with the new counter value. -/
def nextCorrelationId (sid : List Char) (seq : Nat) : List Char × Nat :=
  (mkCorrId sid (seq + 1), seq + 1)

/-- The ids produced by `n` successive generated-id calls on one writer
whose counter currently holds `seq`, each paired with the numeric suffix
embedded in it. -/
def genCorrIds (sid : List Char) : Nat → Nat → List (List Char × Nat)
  | _, 0 => []
  | seq, k + 1 =>
      (mkCorrId sid (seq + 1), seq + 1) :: genCorrIds sid (seq + 1) k

/-- One persisted record, with the required keys of the line format
(`ts` carries no invariant used here and is omitted). -/
structure Entry where
  lvl : List Char
  cid : List Char
  aid : List Char
  evt : List Char
  msg : List Char
deriving DecidableEq

/-- `AgentLogger.log`: truncate the message, settle the correlation id
(`cid or self._next_correlation_id()` — an empty string is falsy in
Python, so it also triggers generation), and build the entry. Returns the
entry, the new counter value and the returned correlation id. -/
def logCall (sid : List Char) (seq : Nat) (aid lvl evt msg : List Char)
    (cid : Option (List Char)) : Entry × Nat × List Char :=
  match cid with
  | some c =>
      if c = [] then
        (⟨lvl, (nextCorrelationId sid seq).1, aid, evt, truncateMsg msg⟩,
         (nextCorrelationId sid seq).2, (nextCorrelationId sid seq).1)
      else (⟨lvl, c, aid, evt, truncateMsg msg⟩, seq, c)
  | none =>
      (⟨lvl, (nextCorrelationId sid seq).1, aid, evt, truncateMsg msg⟩,
       (nextCorrelationId sid seq).2, (nextCorrelationId sid seq).1)

/-- `severity == "security"` maps to level `"error"`, every other
severity to `"warn"` (`AgentLogger.escalation`). -/
def escalationLvl (severity : List Char) : List Char :=
  if severity = "security".data then "error".data else "warn".data

/-- `AgentLogger.escalation`: a `log` call with the severity-derived
level and event type `"escalation.raised"`. -/
def escalationCall (sid : List Char) (seq : Nat) (aid reason severity : List Char) :
    Entry × Nat × List Char :=
  logCall sid seq aid (escalationLvl severity) "escalation.raised".data reason none


-- ## Concrete store fragments used to evaluate the model

/-- A concrete stand-in for `json.loads` + key extraction on two known
lines: `"a"` parses to a `decision.made`/`info` record, `"b"` to a
`hook.pre_tool`/`debug` record, anything else is malformed. -/
def demoParse : List Char → Option EvtLvl :=
  fun s =>
    if s = ['a'] then some ⟨"decision.made".data, "info".data⟩
    else if s = ['b'] then some ⟨"hook.pre_tool".data, "debug".data⟩
    else none

/-- A session file dated long before any cutoff used below, holding one
preserved record (`"a"`) and one droppable record (`"b"`). -/
def demoCFile : CFile := ⟨"2020-01-01".data, "sess1".data, "a\nb\n".data⟩

/-- An old (age-marked) 100-byte file. -/
def demoOld : LFile := ⟨"2000-01-01".data, "old.jsonl".data, 100, 0⟩

/-- A recent 9-byte file. -/
def demoNew : LFile := ⟨"2099-01-01".data, "new.jsonl".data, 9, 1⟩

/-- The cutoff date string used with the demo files. -/
def demoCutoff : List Char := "2024-01-01".data


-- ## Basic lemmas about the string model

theorem pyLt_irrefl : ∀ s : List Char, pyLt s s = false := by
  intro s
  induction s with
  | nil => rfl
  | cons a as ih => simp [pyLt, ih]

theorem pyLt_cases :
    ∀ s t : List Char, pyLt s t = true ∨ pyLt t s = true ∨ s = t := by
  intro s
  induction s with
  | nil =>
      intro t
      cases t with
      | nil => right; right; rfl
      | cons b bs => left; rfl
  | cons a as ih =>
      intro t
      cases t with
      | nil => right; left; rfl
      | cons b bs =>
          rcases Nat.lt_trichotomy a.toNat b.toNat with h | h | h
          · left; simp [pyLt, h]
          · have hab : a = b := Char.eq_of_val_eq (UInt32.ext h)
            subst hab
            rcases ih bs with h1 | h1 | h1
            · left; simp [pyLt, h1]
            · right; left; simp [pyLt, h1]
            · right; right; rw [h1]
          · right; left; simp [pyLt, h]

theorem pyLt_trans :
    ∀ s t u : List Char, pyLt s t = true → pyLt t u = true → pyLt s u = true := by
  intro s
  induction s with
  | nil =>
      intro t u hst htu
      cases t with
      | nil => exact absurd hst (by simp [pyLt])
      | cons b bs =>
          cases u with
          | nil => exact absurd htu (by simp [pyLt])
          | cons c cs => rfl
  | cons a as ih =>
      intro t u hst htu
      cases t with
      | nil => exact absurd hst (by simp [pyLt])
      | cons b bs =>
          cases u with
          | nil => exact absurd htu (by simp [pyLt])
          | cons c cs =>
              by_cases hab : a.toNat < b.toNat
              · by_cases hbc : b.toNat < c.toNat
                · simp [pyLt, Nat.lt_trans hab hbc]
                · by_cases hcb : c.toNat < b.toNat
                  · simp [pyLt, hbc, hcb] at htu
                  · have hbc' : b.toNat = c.toNat := Nat.le_antisymm
                      (Nat.le_of_not_lt hcb) (Nat.le_of_not_lt hbc)
                    simp [pyLt, hbc' ▸ hab]
              · by_cases hba : b.toNat < a.toNat
                · simp [pyLt, hab, hba] at hst
                · have hab' : a.toNat = b.toNat := Nat.le_antisymm
                    (Nat.le_of_not_lt hba) (Nat.le_of_not_lt hab)
                  simp only [pyLt, hab, hba, if_false, if_true] at hst
                  by_cases hbc : b.toNat < c.toNat
                  · simp [pyLt, hab' ▸ hbc]
                  · by_cases hcb : c.toNat < b.toNat
                    · simp [pyLt, hbc, hcb] at htu
                    · simp only [pyLt, hbc, hcb, if_false] at htu
                      have hac : ¬ a.toNat < c.toNat := hab' ▸ hbc
                      have hca : ¬ c.toNat < a.toNat := hab' ▸ hcb
                      simp [pyLt, hac, hca, ih bs cs hst htu]

theorem pyLt_of_pyLt_of_not_pyLt {d c2 c1 : List Char}
    (h1 : pyLt d c2 = true) (h2 : pyLt c1 c2 = false) : pyLt d c1 = true := by
  rcases pyLt_cases c1 c2 with h | h | h
  · rw [h] at h2; cases h2
  · exact pyLt_trans d c2 c1 h1 h
  · subst h; exact h1

theorem dropWhile_dropWhile_self {α : Type} (p : α → Bool) :
    ∀ l : List α, (l.dropWhile p).dropWhile p = l.dropWhile p := by
  intro l
  induction l with
  | nil => rfl
  | cons a t ih =>
      by_cases h : p a
      · simp [List.dropWhile, h, ih]
      · simp [List.dropWhile, h]

theorem dropWhile_head_not {α : Type} (p : α → Bool) :
    ∀ (l : List α) (a : α) (t : List α), l.dropWhile p = a :: t → p a = false := by
  intro l
  induction l with
  | nil => intro a t h; cases h
  | cons b l ih =>
      intro a t h
      by_cases hb : p b
      · rw [List.dropWhile_cons_of_pos hb] at h
        exact ih a t h
      · rw [List.dropWhile_cons_of_neg hb] at h
        cases h
        exact Bool.of_not_eq_true hb

theorem stripRight_isPrefix (p : Char → Bool) (l : List Char) :
    (l.reverse.dropWhile p).reverse <+: l := by
  have h1 : l.reverse.dropWhile p <:+ l.reverse := List.dropWhile_suffix p
  have h2 : ((l.reverse.dropWhile p).reverse).reverse <:+ l.reverse := by
    rw [List.reverse_reverse]; exact h1
  exact List.reverse_suffix.mp h2

theorem pyStrip_idem (s : List Char) : pyStrip (pyStrip s) = pyStrip s := by
  unfold pyStrip
  set u := s.dropWhile isPyWS with hu_def
  have hu : u.dropWhile isPyWS = u := dropWhile_dropWhile_self isPyWS s
  set v := (u.reverse.dropWhile isPyWS).reverse with hv_def
  have hv1 : v.dropWhile isPyWS = v := by
    cases hv : v with
    | nil => simp
    | cons a t =>
        have hpre : v <+: u := stripRight_isPrefix isPyWS u
        rcases hpre with ⟨rest, hrest⟩
        rw [hv] at hrest
        have hws : isPyWS a = false := by
          by_cases hwa : isPyWS a
          · exfalso
            have : u.dropWhile isPyWS = (t ++ rest).dropWhile isPyWS := by
              rw [← hrest, List.cons_append, List.dropWhile_cons_of_pos hwa]
            rw [hu] at this
            have hlen : ((t ++ rest).dropWhile isPyWS).length ≤ (t ++ rest).length :=
              (List.dropWhile_suffix isPyWS).length_le
            rw [← this, ← hrest] at hlen
            simp at hlen
          · exact Bool.of_not_eq_true hwa
        exact List.dropWhile_cons_of_neg (by simp [hws])
  have hv2 : v.reverse.dropWhile isPyWS = v.reverse := by
    rw [hv_def, List.reverse_reverse]
    exact dropWhile_dropWhile_self isPyWS u.reverse
  rw [hv1, hv2, List.reverse_reverse]

theorem pyStrip_sublist (s : List Char) : List.Sublist (pyStrip s) s := by
  unfold pyStrip
  have h1 : ((s.dropWhile isPyWS).reverse.dropWhile isPyWS).reverse <+: s.dropWhile isPyWS :=
    stripRight_isPrefix isPyWS (s.dropWhile isPyWS)
  exact h1.sublist.trans (List.dropWhile_suffix isPyWS).sublist

theorem pyStrip_mem {c : Char} {s : List Char} (h : c ∈ pyStrip s) : c ∈ s :=
  (pyStrip_sublist s).mem h

theorem linesOf_no_nl : ∀ (cs : List Char) (l : List Char),
    l ∈ linesOf cs → ('\n' : Char) ∉ l := by
  intro cs
  induction cs with
  | nil => intro l h; cases h
  | cons c cs ih =>
      intro l hl
      by_cases hc : c = '\n'
      · rw [linesOf, if_pos hc] at hl
        rcases List.mem_cons.mp hl with h | h
        · subst h; simp
        · exact ih l h
      · rw [linesOf, if_neg hc] at hl
        cases hrec : linesOf cs with
        | nil =>
            rw [hrec] at hl
            rcases List.mem_cons.mp hl with h | h
            · subst h
              intro hmem
              rcases List.mem_singleton.mp hmem with h
              exact hc h.symm
            · cases h
        | cons l0 ls =>
            rw [hrec] at hl
            rcases List.mem_cons.mp hl with h | h
            · subst h
              intro hmem
              rcases List.mem_cons.mp hmem with h | h
              · exact hc h.symm
              · exact ih l0 (hrec ▸ List.mem_cons_self l0 ls) h
            · exact ih l (hrec ▸ List.mem_cons_of_mem l0 h)

theorem linesOf_append_nl :
    ∀ (l cs : List Char), ('\n' : Char) ∉ l →
      linesOf (l ++ '\n' :: cs) = l :: linesOf cs := by
  intro l
  induction l with
  | nil =>
      intro cs _
      simp [linesOf]
  | cons c l ih =>
      intro cs hmem
      have hc : ¬ c = '\n' := by
        intro h
        exact hmem (h ▸ List.mem_cons_self c l)
      have hl : ('\n' : Char) ∉ l := fun h => hmem (List.mem_cons_of_mem c h)
      rw [List.cons_append, linesOf, if_neg hc, ih cs hl]

theorem linesOf_joinNl :
    ∀ ls : List (List Char), ls ≠ [] → (∀ l ∈ ls, ('\n' : Char) ∉ l) →
      linesOf (joinNl ls ++ ['\n']) = ls := by
  intro ls
  induction ls with
  | nil => intro h _; exact absurd rfl h
  | cons l ls ih =>
      intro _ hnl
      cases ls with
      | nil =>
          have : joinNl [l] = l := rfl
          rw [this]
          have h0 : linesOf (l ++ '\n' :: []) = l :: linesOf [] :=
            linesOf_append_nl l [] (hnl l (List.mem_cons_self l []))
          simpa [linesOf] using h0
      | cons l2 ls2 =>
          have hj : joinNl (l :: l2 :: ls2) = l ++ '\n' :: joinNl (l2 :: ls2) := rfl
          rw [hj, List.append_assoc, List.cons_append]
          rw [linesOf_append_nl l _ (hnl l (List.mem_cons_self l _))]
          rw [ih (by simp) (fun x hx => hnl x (List.mem_cons_of_mem l hx))]

-- ## Lemmas about `keptLines`

theorem keptFn_eq_some {parse : List Char → Option EvtLvl} {line x : List Char} :
    keptFn parse line = some x ↔
      x = pyStrip line ∧ pyStrip line ≠ [] ∧
        ∃ e, parse (pyStrip line) = some e ∧ isPreserved e = true := by
  unfold keptFn
  by_cases hs : pyStrip line = []
  · simp [hs]
  · rw [if_neg hs]
    cases hp : parse (pyStrip line) with
    | none => simp [hs]
    | some e =>
        simp only [hs, ne_eq, not_false_iff, true_and]
        by_cases hpres : isPreserved e
        · rw [if_pos hpres]
          constructor
          · intro h
            injection h with h
            exact ⟨h.symm, e, rfl, hpres⟩
          · rintro ⟨hx, e2, he2, hp2⟩
            subst hx
            rfl
        · rw [if_neg hpres]
          constructor
          · intro h; cases h
          · rintro ⟨hx, e2, he2, hp2⟩
            injection he2 with he2
            subst he2
            exact absurd hp2 hpres

theorem keptLines_mem {parse : List Char → Option EvtLvl}
    {lines : List (List Char)} {x : List Char} :
    x ∈ keptLines parse lines ↔
      ∃ l ∈ lines, x = pyStrip l ∧ pyStrip l ≠ [] ∧
        ∃ e, parse (pyStrip l) = some e ∧ isPreserved e = true := by
  unfold keptLines
  rw [List.mem_filterMap]
  constructor
  · rintro ⟨l, hl, hfn⟩
    exact ⟨l, hl, keptFn_eq_some.mp hfn⟩
  · rintro ⟨l, hl, h⟩
    exact ⟨l, hl, keptFn_eq_some.mpr h⟩

theorem keptLines_sublist (parse : List Char → Option EvtLvl) :
    ∀ lines : List (List Char),
      List.Sublist (keptLines parse lines) (lines.map pyStrip) := by
  intro lines
  induction lines with
  | nil => simp [keptLines]
  | cons a t ih =>
      unfold keptLines at ih ⊢
      rw [List.filterMap_cons, List.map_cons]
      cases hfn : keptFn parse a with
      | none => exact ih.cons (pyStrip a)
      | some b =>
          have hb : b = pyStrip a := (keptFn_eq_some.mp hfn).1
          rw [hb]
          exact ih.cons₂ (pyStrip a)

theorem keptLines_elem_strip {parse : List Char → Option EvtLvl}
    {lines : List (List Char)} {x : List Char} (h : x ∈ keptLines parse lines) :
    pyStrip x = x ∧ keptFn parse x = some x := by
  rcases keptLines_mem.mp h with ⟨l, -, hx, hne, e, hp, hpres⟩
  subst hx
  have hidem : pyStrip (pyStrip l) = pyStrip l := pyStrip_idem l
  refine ⟨hidem, keptFn_eq_some.mpr ⟨hidem.symm, ?_, e, ?_, hpres⟩⟩
  · rw [hidem]; exact hne
  · rw [hidem]; exact hp

theorem filterMap_id_of {α : Type} (f : α → Option α) :
    ∀ l : List α, (∀ x ∈ l, f x = some x) → l.filterMap f = l := by
  intro l
  induction l with
  | nil => intro _; rfl
  | cons a t ih =>
      intro h
      rw [List.filterMap_cons, h a (List.mem_cons_self a t),
        ih (fun x hx => h x (List.mem_cons_of_mem a hx))]

theorem keptLines_no_nl {parse : List Char → Option EvtLvl} {c x : List Char}
    (h : x ∈ keptLines parse (linesOf c)) : ('\n' : Char) ∉ x := by
  rcases keptLines_mem.mp h with ⟨l, hl, hx, -⟩
  intro hmem
  exact linesOf_no_nl c l hl (pyStrip_mem (hx ▸ hmem))

/-- The key fixed-point fact behind idempotence: re-reading a rewritten
file yields exactly the kept lines again, and all of them are preserved
again. -/
theorem keptLines_roundtrip (parse : List Char → Option EvtLvl) (c : List Char)
    (hne : keptLines parse (linesOf c) ≠ []) :
    keptLines parse (linesOf (compactedBody (keptLines parse (linesOf c)))) =
      keptLines parse (linesOf c) := by
  set kept := keptLines parse (linesOf c) with hkept
  have hnl : ∀ l ∈ kept, ('\n' : Char) ∉ l := fun l hl => keptLines_no_nl hl
  have hlines : linesOf (compactedBody kept) = kept := by
    unfold compactedBody
    exact linesOf_joinNl kept hne hnl
  rw [hlines]
  exact filterMap_id_of (keptFn parse) kept
    (fun x hx => (keptLines_elem_strip hx).2)


-- ## Lemmas about the retention evaluator

theorem lfile_contains_iff (l : List LFile) (a : LFile) :
    l.contains a = true ↔ a ∈ l := List.elem_iff

theorem sortByMtime_sorted (files : List LFile) :
    List.Pairwise byMtime (sortByMtime files) :=
  List.sorted_insertionSort byMtime files

theorem sortByMtime_perm (files : List LFile) :
    (sortByMtime files).Perm files :=
  List.perm_insertionSort byMtime files

theorem sortByMtime_nodup {files : List LFile} (h : files.Nodup) :
    (sortByMtime files).Nodup :=
  ((sortByMtime_perm files).nodup_iff).mpr h

theorem remainingAfter_mem {marked all : List LFile} {f : LFile} :
    f ∈ remainingAfter marked all ↔ f ∈ all ∧ f ∉ marked := by
  unfold remainingAfter
  rw [List.mem_filter]
  constructor
  · rintro ⟨h1, h2⟩
    refine ⟨h1, fun hm => ?_⟩
    rw [Bool.not_eq_eq_eq_not, Bool.not_true] at h2
    rw [(lfile_contains_iff marked f).mpr hm] at h2
    cases h2
  · rintro ⟨h1, h2⟩
    refine ⟨h1, ?_⟩
    rw [Bool.not_eq_eq_eq_not, Bool.not_true]
    cases hc : marked.contains f with
    | false => rfl
    | true => exact absurd ((lfile_contains_iff marked f).mp hc) h2

theorem lfile_contains_eq (l : List LFile) (a : LFile) :
    l.contains a = decide (a ∈ l) := by
  cases hc : l.contains a with
  | true => exact (decide_eq_true ((lfile_contains_iff l a).mp hc)).symm
  | false =>
      have hnm : a ∉ l := fun hm => by
        rw [(lfile_contains_iff l a).mpr hm] at hc; cases hc
      exact (decide_eq_false hnm).symm

theorem remainingAfter_append (m1 m2 all : List LFile) :
    remainingAfter (m1 ++ m2) all =
      (remainingAfter m1 all).filter (fun f => !(m2.contains f)) := by
  unfold remainingAfter
  rw [List.filter_filter]
  apply List.filter_congr
  intro f _
  show (!((m1 ++ m2).contains f)) = (!(m2.contains f) && !(m1.contains f))
  rw [lfile_contains_eq, lfile_contains_eq, lfile_contains_eq]
  by_cases h1 : f ∈ m1
  · by_cases h2 : f ∈ m2 <;> simp [h1, h2]
  · by_cases h2 : f ∈ m2 <;> simp [h1, h2]

theorem filter_not_contains_take {l : List LFile} (k : Nat) (h : l.Nodup) :
    l.filter (fun f => !((l.take k).contains f)) = l.drop k := by
  have hnd : (List.take k l ++ List.drop k l).Nodup := by
    rw [List.take_append_drop]; exact h
  have hdisj : (List.take k l).Disjoint (List.drop k l) :=
    (List.nodup_append.mp hnd).2.2
  have h1 : (List.take k l).filter (fun f => !((l.take k).contains f)) = [] := by
    rw [List.filter_eq_nil_iff]
    intro a ha
    simp [lfile_contains_eq, ha]
  have h2 : (List.drop k l).filter (fun f => !((l.take k).contains f)) =
      List.drop k l := by
    rw [List.filter_eq_self]
    intro a ha
    simp only [lfile_contains_eq, Bool.not_eq_true', decide_eq_false_iff_not]
    exact fun hc => hdisj hc ha
  have hsplit : List.filter (fun f => !((l.take k).contains f)) l
      = List.filter (fun f => !((l.take k).contains f)) (l.take k)
        ++ List.filter (fun f => !((l.take k).contains f)) (l.drop k) := by
    rw [← List.filter_append, List.take_append_drop]
  rw [hsplit, h1, h2, List.nil_append]

theorem sizeLoop_take (maxSizeBytes : Nat) :
    ∀ l : List LFile,
      ∃ k, sizeLoop maxSizeBytes ((l.map (·.size)).sum) l = l.take k ∧
        5 * (((l.drop k).map (·.size)).sum) ≤ 4 * maxSizeBytes := by
  intro l
  induction l with
  | nil => exact ⟨0, rfl, by simp⟩
  | cons f rest ih =>
      by_cases hstop : 5 * ((List.map (·.size) (f :: rest)).sum) ≤ 4 * maxSizeBytes
      · refine ⟨0, ?_, by simpa using hstop⟩
        unfold sizeLoop
        rw [if_pos hstop]
        rfl
      · rcases ih with ⟨k, hk, hsum⟩
        refine ⟨k + 1, ?_, by simpa using hsum⟩
        unfold sizeLoop
        rw [if_neg hstop]
        have harg : (List.map (·.size) (f :: rest)).sum - f.size =
            (List.map (·.size) rest).sum := by
          simp [Nat.add_sub_cancel_left]
        rw [harg, hk]
        rfl

-- ## Lemmas about the event writer

theorem pyLe_eq_false_iff (s t : List Char) :
    pyLe s t = false ↔ pyLt t s = true := by
  unfold pyLe
  cases pyLt t s <;> simp

theorem pyLe_eq_true_iff (s t : List Char) :
    pyLe s t = true ↔ pyLt t s = false := by
  unfold pyLe
  cases pyLt t s <;> simp

theorem genCorrIds_eq (sid : List Char) :
    ∀ n s : Nat,
      genCorrIds sid s n =
        (List.range n).map (fun k => (mkCorrId sid (s + k + 1), s + k + 1)) := by
  intro n
  induction n with
  | zero => intro s; rfl
  | succ n ih =>
      intro s
      rw [List.range_succ_eq_map, List.map_cons, List.map_map]
      show (mkCorrId sid (s + 1), s + 1) :: genCorrIds sid (s + 1) n = _
      congr 1
      · rw [ih (s + 1)]
        apply List.map_congr_left
        intro k _
        show (mkCorrId sid (s + 1 + k + 1), s + 1 + k + 1) =
          (mkCorrId sid (s + (k + 1) + 1), s + (k + 1) + 1)
        rw [show s + 1 + k + 1 = s + (k + 1) + 1 by omega]

theorem isPreserved_iff (e : EvtLvl) :
    isPreserved e = true ↔ e.evt ∈ preserveEvents ∨ e.lvl ∈ levelsKept := by
  unfold isPreserved
  rw [Bool.or_eq_true, decide_eq_true_iff, decide_eq_true_iff]

-- ## Lemmas about the compaction evaluator

theorem compactFileStep_eligible (parse : List Char → Option EvtLvl)
    (cutoff : List Char) (f : CFile)
    (h1 : pyLe cutoff f.dateDir = false)
    (h2 : endsWithCL f.stem compactedMarker = false) :
    compactFileStep parse cutoff false f =
      if keptLines parse (linesOf f.content) = [] then (f, 0, 0)
      else
        (⟨f.dateDir, f.stem, compactedBody (keptLines parse (linesOf f.content))⟩, 1,
         (f.content.length : Int) -
           ((compactedBody (keptLines parse (linesOf f.content))).length : Int)) := by
  unfold compactFileStep
  rw [if_neg (by rw [h1]; exact Bool.false_ne_true),
    if_neg (by rw [h2]; exact Bool.false_ne_true)]
  by_cases hk : keptLines parse (linesOf f.content) = []
  · rw [if_pos hk]
    rw [if_neg (by simp [hk])]
  · rw [if_neg hk]
    rw [if_pos (by simp [List.isEmpty_iff, hk])]

theorem compactFileStep_skip_dateDir (parse : List Char → Option EvtLvl)
    {cutoff : List Char} {f : CFile} (dryRun : Bool)
    (h1 : pyLe cutoff f.dateDir = true) :
    compactFileStep parse cutoff dryRun f = (f, 0, 0) := by
  unfold compactFileStep
  rw [if_pos h1]

theorem compactFileStep_skip_marker (parse : List Char → Option EvtLvl)
    {cutoff : List Char} {f : CFile} (dryRun : Bool)
    (h2 : endsWithCL f.stem compactedMarker = true) :
    compactFileStep parse cutoff dryRun f = (f, 0, 0) := by
  unfold compactFileStep
  by_cases h1 : pyLe cutoff f.dateDir
  · rw [if_pos h1]
  · rw [if_neg h1, if_pos h2]

/-- Per-file idempotence: re-running the compaction step with the same or
an older cutoff on the output of a first non-dry-run step returns that
file unchanged and saves zero additional bytes. -/
theorem compactFileStep_second (parse : List Char → Option EvtLvl)
    (cutoff1 cutoff2 : List Char) (f : CFile)
    (hcc : pyLe cutoff2 cutoff1 = true) :
    (compactFileStep parse cutoff2 false
        (compactFileStep parse cutoff1 false f).1).1 =
      (compactFileStep parse cutoff1 false f).1 ∧
    (compactFileStep parse cutoff2 false
        (compactFileStep parse cutoff1 false f).1).2.2 = 0 := by
  by_cases hd1 : pyLe cutoff1 f.dateDir
  · rw [compactFileStep_skip_dateDir parse false hd1]
    by_cases hd2 : pyLe cutoff2 f.dateDir
    · rw [compactFileStep_skip_dateDir parse false hd2]
      exact ⟨rfl, rfl⟩
    · exfalso
      have hlt2 : pyLt f.dateDir cutoff2 = true :=
        (pyLe_eq_false_iff _ _).mp (Bool.of_not_eq_true hd2)
      have hnlt : pyLt cutoff1 cutoff2 = false := (pyLe_eq_true_iff _ _).mp hcc
      have hlt1 := pyLt_of_pyLt_of_not_pyLt hlt2 hnlt
      rw [(pyLe_eq_false_iff cutoff1 f.dateDir).mpr hlt1] at hd1
      exact absurd hd1 Bool.false_ne_true
  · by_cases hm : endsWithCL f.stem compactedMarker
    · rw [compactFileStep_skip_marker parse false hm]
      by_cases hd2 : pyLe cutoff2 f.dateDir
      · rw [compactFileStep_skip_dateDir parse false hd2]
        exact ⟨rfl, rfl⟩
      · rw [compactFileStep_skip_marker parse false hm]
        exact ⟨rfl, rfl⟩
    · have hd1f : pyLe cutoff1 f.dateDir = false := Bool.of_not_eq_true hd1
      have hmf : endsWithCL f.stem compactedMarker = false := Bool.of_not_eq_true hm
      rw [compactFileStep_eligible parse cutoff1 f hd1f hmf]
      by_cases hk : keptLines parse (linesOf f.content) = []
      · rw [if_pos hk]
        by_cases hd2 : pyLe cutoff2 f.dateDir
        · rw [compactFileStep_skip_dateDir parse false hd2]
          exact ⟨rfl, rfl⟩
        · have hd2f : pyLe cutoff2 f.dateDir = false := Bool.of_not_eq_true hd2
          rw [compactFileStep_eligible parse cutoff2 f hd2f hmf, if_pos hk]
          exact ⟨rfl, rfl⟩
      · rw [if_neg hk]
        by_cases hd2 : pyLe cutoff2 f.dateDir
        · rw [compactFileStep_skip_dateDir parse false
            (f := ⟨f.dateDir, f.stem,
              compactedBody (keptLines parse (linesOf f.content))⟩) hd2]
          exact ⟨rfl, rfl⟩
        · have hd2f : pyLe cutoff2 f.dateDir = false := Bool.of_not_eq_true hd2
          rw [compactFileStep_eligible parse cutoff2
            ⟨f.dateDir, f.stem,
              compactedBody (keptLines parse (linesOf f.content))⟩ hd2f hmf]
          dsimp only
          rw [keptLines_roundtrip parse f.content hk, if_neg hk]
          exact ⟨rfl, sub_self _⟩

theorem sum_map_zero_int {α : Type} (l : List α) :
    (l.map (fun _ => (0 : Int))).sum = 0 := by
  induction l with
  | nil => rfl
  | cons a t ih => simp [ih]

-- ## Claims

/-- C4: for every call to `AgentLogger.log`, a message longer than 100
characters is persisted as exactly 100 characters — its first 97
characters followed by the 3-character marker `"..."` — and a message of
at most 100 characters is persisted verbatim. -/
theorem claim_C4_log_truncation (sid : List Char) (seq : Nat)
    (aid lvl evt msg : List Char) (cid : Option (List Char)) :
    (logCall sid seq aid lvl evt msg cid).1.msg = truncateMsg msg ∧
    (100 < msg.length →
      (logCall sid seq aid lvl evt msg cid).1.msg.length = 100 ∧
      (logCall sid seq aid lvl evt msg cid).1.msg = msg.take 97 ++ "...".data ∧
      (logCall sid seq aid lvl evt msg cid).1.msg.drop 97 = "...".data) ∧
    (msg.length ≤ 100 → (logCall sid seq aid lvl evt msg cid).1.msg = msg) := by
  have hmsg : (logCall sid seq aid lvl evt msg cid).1.msg = truncateMsg msg := by
    cases cid with
    | none => rfl
    | some c =>
        cases c with
        | nil => rfl
        | cons a t => rfl
  refine ⟨hmsg, ?_, ?_⟩
  · intro hlen
    have htr : truncateMsg msg = msg.take 97 ++ "...".data := by
      unfold truncateMsg
      rw [if_pos hlen]
    have hlen97 : (msg.take 97).length = 97 := by
      rw [List.length_take]
      exact min_eq_left (by omega)
    refine ⟨?_, by rw [hmsg, htr], ?_⟩
    · rw [hmsg, htr, List.length_append, hlen97]
      rfl
    · rw [hmsg, htr]
      have hdl := List.drop_left (msg.take 97) "...".data
      rwa [hlen97] at hdl
  · intro hlen
    rw [hmsg]
    unfold truncateMsg
    rw [if_neg (by omega)]

theorem claim_C4_witness :
    100 < (List.replicate 101 'a').length ∧
    (logCall "s01".data 0 "orch:default".data "info".data "task.started".data
        (List.replicate 101 'a') none).1.msg.length = 100 ∧
    (logCall "s01".data 0 "orch:default".data "info".data "task.started".data
        (List.replicate 101 'a') none).1.msg.drop 97 = "...".data :=
  ⟨by decide,
   ((claim_C4_log_truncation "s01".data 0 "orch:default".data "info".data
       "task.started".data (List.replicate 101 'a') none).2.1 (by decide)).1,
   ((claim_C4_log_truncation "s01".data 0 "orch:default".data "info".data
       "task.started".data (List.replicate 101 'a') none).2.1 (by decide)).2.2⟩

/-- C5: correlation ids generated by a writer without a caller-supplied
id have the form `corr_{session_id}_{seq}` with `seq` counting 1, 2, …,
zero-padded to at least 3 digits and not re-padded beyond 999, and the
numeric suffixes of successive calls are unique and strictly
increasing. -/
theorem claim_C5_correlation_ids (sid : List Char) (n : Nat) :
    genCorrIds sid 0 n =
      (List.range n).map (fun k => (mkCorrId sid (k + 1), k + 1)) ∧
    List.Pairwise (fun a b : List Char × Nat => a.2 < b.2) (genCorrIds sid 0 n) ∧
    (∀ p ∈ genCorrIds sid 0 n,
      p.1 = "corr_".data ++ sid ++ "_".data ++ pad3 p.2) ∧
    (∀ m : Nat, (pad3 m).length = max 3 (Nat.toDigits 10 m).length) ∧
    (∀ m : Nat, 3 ≤ (Nat.toDigits 10 m).length →
      pad3 m = Nat.toDigits 10 m) := by
  have h0 : genCorrIds sid 0 n =
      (List.range n).map (fun k => (mkCorrId sid (k + 1), k + 1)) := by
    rw [genCorrIds_eq sid n 0]
    apply List.map_congr_left
    intro k _
    rw [Nat.zero_add]
  refine ⟨h0, ?_, ?_, ?_, ?_⟩
  · rw [h0, List.pairwise_map]
    exact (List.pairwise_lt_range n).imp (fun h => by omega)
  · intro p hp
    rw [h0] at hp
    rcases List.mem_map.mp hp with ⟨k, -, hk⟩
    rw [← hk]
    rfl
  · intro m
    unfold pad3
    rw [List.length_append, List.length_replicate]
    omega
  · intro m hm
    unfold pad3
    rw [show 3 - (Nat.toDigits 10 m).length = 0 by omega]
    rfl

theorem claim_C5_witness :
    3 ≤ (Nat.toDigits 10 1234).length ∧ pad3 1234 = Nat.toDigits 10 1234 :=
  ⟨by decide, (claim_C5_correlation_ids [] 0).2.2.2.2 1234 (by decide)⟩

/-- C9 (amended): for a store root that does not exist, `get_log_stats`
returns a zeroed result — file count 0, total bytes 0, null oldest and
newest dates — rather than raising; but this early return carries NO
`dates` field at all (the normal path does), so the claimed empty dates
list is absent. -/
theorem claim_C9_missing_root_stats :
    getLogStats none = ⟨0, 0, none, none, none⟩ ∧
    (getLogStats none).dates = none ∧
    (∀ files : List LFile,
      (getLogStats (some files)).dates = some (sortedDates files) ∧
      (getLogStats (some files)).totalFiles = files.length) :=
  ⟨rfl, rfl, fun _ => ⟨rfl, rfl⟩⟩

theorem claim_C9_cex :
    (getLogStats none).dates = none ∧
    ¬ (getLogStats none).dates = some ([] : List (List Char)) :=
  ⟨rfl, fun h => Option.noConfusion h⟩

/-- C10: every record produced by `AgentLogger.escalation` has event type
`escalation.raised`, level `error` for severity `security` and `warn`
otherwise, satisfies the compaction preservation predicate, and is never
dropped by a compaction rewrite. -/
theorem claim_C10_escalation_preserved (sid : List Char) (seq : Nat)
    (aid reason severity : List Char) :
    (escalationCall sid seq aid reason severity).1.evt =
      "escalation.raised".data ∧
    (severity = "security".data →
      (escalationCall sid seq aid reason severity).1.lvl = "error".data) ∧
    (severity ≠ "security".data →
      (escalationCall sid seq aid reason severity).1.lvl = "warn".data) ∧
    isPreserved ⟨(escalationCall sid seq aid reason severity).1.evt,
      (escalationCall sid seq aid reason severity).1.lvl⟩ = true ∧
    (∀ (parse : List Char → Option EvtLvl) (lines : List (List Char))
        (l : List Char), l ∈ lines → pyStrip l ≠ [] →
      parse (pyStrip l) =
        some ⟨(escalationCall sid seq aid reason severity).1.evt,
          (escalationCall sid seq aid reason severity).1.lvl⟩ →
      pyStrip l ∈ keptLines parse lines) := by
  have hpres : isPreserved ⟨(escalationCall sid seq aid reason severity).1.evt,
      (escalationCall sid seq aid reason severity).1.lvl⟩ = true := by
    apply (isPreserved_iff _).mpr
    left
    show "escalation.raised".data ∈ preserveEvents
    decide
  refine ⟨rfl, ?_, ?_, hpres, ?_⟩
  · intro h
    show escalationLvl severity = "error".data
    unfold escalationLvl
    rw [if_pos h]
  · intro h
    show escalationLvl severity = "warn".data
    unfold escalationLvl
    rw [if_neg h]
  · intro parse lines l hl hne hp
    exact keptLines_mem.mpr ⟨l, hl, rfl, hne, _, hp, hpres⟩

theorem claim_C10_witness :
    ("security".data ≠ "blocked".data) ∧
    (escalationCall "s01".data 0 "a1".data "boom".data "security".data).1.lvl =
      "error".data ∧
    pyStrip ['x'] ∈ keptLines
      (fun s => if s = ['x'] then
        some ⟨(escalationCall "s01".data 0 "a1".data "boom".data
            "security".data).1.evt,
          (escalationCall "s01".data 0 "a1".data "boom".data
            "security".data).1.lvl⟩
        else none)
      [['x']] :=
  ⟨by decide,
   (claim_C10_escalation_preserved "s01".data 0 "a1".data "boom".data
     "security".data).2.1 rfl,
   (claim_C10_escalation_preserved "s01".data 0 "a1".data "boom".data
     "security".data).2.2.2.2
     (fun s => if s = ['x'] then
        some ⟨(escalationCall "s01".data 0 "a1".data "boom".data
            "security".data).1.evt,
          (escalationCall "s01".data 0 "a1".data "boom".data
            "security".data).1.lvl⟩
        else none)
     [['x']] ['x'] (by decide) (by decide) (by decide)⟩

/-- C3 (code bug): evaluated on a store with one eligible compactable
file, a dry-run compaction leaves the filesystem unchanged but reports
`compacted_files = 0` and `saved_bytes = 0`, while the non-dry-run it is
supposed to preview compacts 1 file and saves 2 bytes — the counters are
only updated inside the `if not dry_run and preserved_lines` branch, so
dry-run never reports the candidate set its docstring ("report what would
be compacted") promises. -/
theorem claim_C3_dry_run_underreports :
    (compactRun demoParse demoCutoff true [demoCFile]).files = [demoCFile] ∧
    (compactRun demoParse demoCutoff true [demoCFile]).compacted = 0 ∧
    (compactRun demoParse demoCutoff true [demoCFile]).saved = 0 ∧
    (compactRun demoParse demoCutoff false [demoCFile]).compacted = 1 ∧
    (compactRun demoParse demoCutoff false [demoCFile]).saved = 2 := by
  decide

/-- C1: for every eligible session file (date directory strictly older
than the cutoff, stem not ending in the compacted marker) in a
non-dry-run compaction, a record survives the rewrite iff its event type
is in the fixed preserve-set or its level is in {error, fatal, warn};
the rewritten content is exactly the preserved lines joined in their
original relative order; and if nothing is preserved the file is left
byte-for-byte untouched. -/
theorem claim_C1_compaction_rewrite (parse : List Char → Option EvtLvl)
    (cutoff : List Char) (f : CFile)
    (h1 : pyLe cutoff f.dateDir = false)
    (h2 : endsWithCL f.stem compactedMarker = false) :
    (keptLines parse (linesOf f.content) = [] →
      (compactFileStep parse cutoff false f).1 = f) ∧
    (keptLines parse (linesOf f.content) ≠ [] →
      (compactFileStep parse cutoff false f).1.content =
        joinNl (keptLines parse (linesOf f.content)) ++ ['\n']) ∧
    List.Sublist (keptLines parse (linesOf f.content))
      ((linesOf f.content).map pyStrip) ∧
    (∀ l ∈ linesOf f.content,
      (pyStrip l ∈ keptLines parse (linesOf f.content) ↔
        pyStrip l ≠ [] ∧
          ∃ e, parse (pyStrip l) = some e ∧
            (e.evt ∈ (["decision.made".data, "escalation.raised".data,
                "handoff.initiated".data, "hook.session_start".data,
                "hook.session_end".data, "task.started".data,
                "task.completed".data, "context.compacted".data] :
                List (List Char)) ∨
             e.lvl ∈ (["error".data, "fatal".data, "warn".data] :
                List (List Char))))) := by
  refine ⟨?_, ?_, keptLines_sublist parse (linesOf f.content), ?_⟩
  · intro hk
    rw [compactFileStep_eligible parse cutoff f h1 h2, if_pos hk]
  · intro hk
    rw [compactFileStep_eligible parse cutoff f h1 h2, if_neg hk]
    rfl
  · intro l hl
    constructor
    · intro hmem
      rcases keptLines_mem.mp hmem with ⟨l2, hl2, hx, hne, e, hp, hpres⟩
      rw [← hx] at hne hp
      refine ⟨hne, e, hp, ?_⟩
      have hset := (isPreserved_iff e).mp hpres
      simpa [preserveEvents, levelsKept] using hset
    · rintro ⟨hne, e, hp, hset⟩
      apply keptLines_mem.mpr
      refine ⟨l, hl, rfl, hne, e, hp, ?_⟩
      apply (isPreserved_iff e).mpr
      simpa [preserveEvents, levelsKept] using hset

theorem claim_C1_witness :
    pyLe demoCutoff demoCFile.dateDir = false ∧
    endsWithCL demoCFile.stem compactedMarker = false ∧
    (compactFileStep demoParse demoCutoff false demoCFile).1.content =
      joinNl (keptLines demoParse (linesOf demoCFile.content)) ++ ['\n'] :=
  ⟨by decide, by decide,
   (claim_C1_compaction_rewrite demoParse demoCutoff demoCFile
     (by decide) (by decide)).2.1 (by decide)⟩

/-- C6: compaction is idempotent — re-running a non-dry-run compaction
with the same or an older age threshold (a cutoff date at most the first
one) on the store a first pass produced leaves every file byte-for-byte
identical and reports zero additional bytes saved. -/
theorem claim_C6_compaction_idempotent (parse : List Char → Option EvtLvl)
    (cutoff1 cutoff2 : List Char) (files : List CFile)
    (h : pyLe cutoff2 cutoff1 = true) :
    (compactRun parse cutoff2 false
        (compactRun parse cutoff1 false files).files).files =
      (compactRun parse cutoff1 false files).files ∧
    (compactRun parse cutoff2 false
        (compactRun parse cutoff1 false files).files).saved = 0 := by
  constructor
  · show ((files.map (fun g => (compactFileStep parse cutoff1 false g).1)).map
        (fun g => (compactFileStep parse cutoff2 false g).1)) = _
    rw [List.map_map]
    exact List.map_congr_left
      (fun f _ => (compactFileStep_second parse cutoff1 cutoff2 f h).1)
  · show ((files.map (fun g => (compactFileStep parse cutoff1 false g).1)).map
        (fun g => (compactFileStep parse cutoff2 false g).2.2)).sum = 0
    rw [List.map_map]
    have hz : List.map
        ((fun g => (compactFileStep parse cutoff2 false g).2.2) ∘
          (fun g => (compactFileStep parse cutoff1 false g).1)) files =
        List.map (fun _ => (0 : Int)) files :=
      List.map_congr_left
        (fun f _ => (compactFileStep_second parse cutoff1 cutoff2 f h).2)
    rw [hz, sum_map_zero_int]

theorem claim_C6_witness :
    pyLe demoCutoff demoCutoff = true ∧
    (compactRun demoParse demoCutoff false
        (compactRun demoParse demoCutoff false [demoCFile]).files).files =
      (compactRun demoParse demoCutoff false [demoCFile]).files ∧
    (compactRun demoParse demoCutoff false
        (compactRun demoParse demoCutoff false [demoCFile]).files).saved = 0 :=
  ⟨by decide,
   (claim_C6_compaction_idempotent demoParse demoCutoff demoCutoff [demoCFile]
     (by decide)).1,
   (claim_C6_compaction_idempotent demoParse demoCutoff demoCutoff [demoCFile]
     (by decide)).2⟩

/-- C2 (amended): in the size stage of `cleanup_logs`, additional files
are marked only if the byte total of ALL files — including the ones the
age stage already marked — exceeds `max_size_bytes` (the claim's
"files not yet marked by the age stage" is what the CLI `cleanup` does,
not the library); when the stage runs, it marks a prefix of the
mtime-sorted unmarked files (oldest first, every marked file no newer
than any surviving file), and afterwards the files that survive all
stages total at most 80% of the byte limit. -/
theorem claim_C2_size_stage (files : List LFile) (cutoff : List Char)
    (maxSizeBytes maxFiles : Nat) (hnd : files.Nodup) :
    ((cleanupLogsMarks files cutoff maxSizeBytes maxFiles).2.1 ≠ [] →
      ((sortByMtime files).map (·.size)).sum > maxSizeBytes) ∧
    (∃ k, (cleanupLogsMarks files cutoff maxSizeBytes maxFiles).2.1 =
      (remainingAfter (ageMarks cutoff (sortByMtime files))
        (sortByMtime files)).take k) ∧
    (∀ f ∈ (cleanupLogsMarks files cutoff maxSizeBytes maxFiles).2.1,
      ∀ g ∈ remainingAfter (ageMarks cutoff (sortByMtime files))
          (sortByMtime files),
        g ∉ (cleanupLogsMarks files cutoff maxSizeBytes maxFiles).2.1 →
          f.mtime ≤ g.mtime) ∧
    (((sortByMtime files).map (·.size)).sum > maxSizeBytes →
      5 * ((remainingAfter
          (cleanupLogsCandidates files cutoff maxSizeBytes maxFiles)
          (sortByMtime files)).map (·.size)).sum ≤ 4 * maxSizeBytes) := by
  have hall_nd : (sortByMtime files).Nodup := sortByMtime_nodup hnd
  have hrem1_sub : List.Sublist
      (remainingAfter (ageMarks cutoff (sortByMtime files)) (sortByMtime files))
      (sortByMtime files) := List.filter_sublist _
  have hrem1_nd : (remainingAfter (ageMarks cutoff (sortByMtime files))
      (sortByMtime files)).Nodup := hrem1_sub.nodup hall_nd
  have hrem1_sorted : List.Pairwise byMtime
      (remainingAfter (ageMarks cutoff (sortByMtime files)) (sortByMtime files)) :=
    List.Pairwise.sublist hrem1_sub (sortByMtime_sorted files)
  by_cases htrig : ((sortByMtime files).map (·.size)).sum > maxSizeBytes
  · obtain ⟨k, hk, hsum⟩ := sizeLoop_take maxSizeBytes
      (remainingAfter (ageMarks cutoff (sortByMtime files)) (sortByMtime files))
    have hd2 : (cleanupLogsMarks files cutoff maxSizeBytes maxFiles).2.1 =
        (remainingAfter (ageMarks cutoff (sortByMtime files))
          (sortByMtime files)).take k := by
      show logsSizeMarks maxSizeBytes (sortByMtime files)
          (ageMarks cutoff (sortByMtime files)) = _
      unfold logsSizeMarks
      rw [if_pos htrig]
      exact hk
    refine ⟨fun _ => htrig, ⟨k, hd2⟩, ?_, ?_⟩
    · intro f hf g hg hgn
      rw [hd2] at hf hgn
      have hsplit : List.Pairwise byMtime
          ((remainingAfter (ageMarks cutoff (sortByMtime files))
              (sortByMtime files)).take k ++
            (remainingAfter (ageMarks cutoff (sortByMtime files))
              (sortByMtime files)).drop k) := by
        rw [List.take_append_drop]
        exact hrem1_sorted
      have hg2 : g ∈ (remainingAfter (ageMarks cutoff (sortByMtime files))
            (sortByMtime files)).take k ++
          (remainingAfter (ageMarks cutoff (sortByMtime files))
            (sortByMtime files)).drop k := by
        rw [List.take_append_drop]
        exact hg
      have hgd : g ∈ (remainingAfter (ageMarks cutoff (sortByMtime files))
          (sortByMtime files)).drop k := by
        rcases List.mem_append.mp hg2 with h | h
        · exact absurd h hgn
        · exact h
      exact (List.pairwise_append.mp hsplit).2.2 f hf g hgd
    · intro _
      have hca : remainingAfter
          (cleanupLogsCandidates files cutoff maxSizeBytes maxFiles)
          (sortByMtime files) =
        (remainingAfter (ageMarks cutoff (sortByMtime files))
            (sortByMtime files)).filter
          (fun f => !(((cleanupLogsMarks files cutoff maxSizeBytes maxFiles).2.1 ++
              (cleanupLogsMarks files cutoff maxSizeBytes maxFiles).2.2).contains f)) := by
        unfold cleanupLogsCandidates
        exact remainingAfter_append _ _ _
      have hmono : List.Sublist
          ((remainingAfter (ageMarks cutoff (sortByMtime files))
              (sortByMtime files)).filter
            (fun f => !(((cleanupLogsMarks files cutoff maxSizeBytes maxFiles).2.1 ++
                (cleanupLogsMarks files cutoff maxSizeBytes maxFiles).2.2).contains f)))
          ((remainingAfter (ageMarks cutoff (sortByMtime files))
              (sortByMtime files)).filter
            (fun f => !(((cleanupLogsMarks files cutoff maxSizeBytes maxFiles).2.1).contains f))) := by
        apply List.monotone_filter_right
        intro a ha
        rw [Bool.not_eq_true'] at ha ⊢
        rw [lfile_contains_eq] at ha ⊢
        rw [decide_eq_false_iff_not] at ha ⊢
        intro hmem
        exact ha (List.mem_append_left _ hmem)
      have hfeq : (remainingAfter (ageMarks cutoff (sortByMtime files))
            (sortByMtime files)).filter
          (fun f => !(((cleanupLogsMarks files cutoff maxSizeBytes maxFiles).2.1).contains f)) =
          (remainingAfter (ageMarks cutoff (sortByMtime files))
            (sortByMtime files)).drop k := by
        rw [hd2]
        exact filter_not_contains_take k hrem1_nd
      rw [hca]
      have hss : List.Sublist
          (((remainingAfter (ageMarks cutoff (sortByMtime files))
              (sortByMtime files)).filter
            (fun f => !(((cleanupLogsMarks files cutoff maxSizeBytes maxFiles).2.1 ++
                (cleanupLogsMarks files cutoff maxSizeBytes maxFiles).2.2).contains f))).map (·.size))
          (((remainingAfter (ageMarks cutoff (sortByMtime files))
              (sortByMtime files)).drop k).map (·.size)) := by
        rw [← hfeq]
        exact hmono.map (·.size)
      have hle := hss.sum_le_sum (fun a _ => Nat.zero_le a)
      calc 5 * (((remainingAfter (ageMarks cutoff (sortByMtime files))
              (sortByMtime files)).filter
            (fun f => !(((cleanupLogsMarks files cutoff maxSizeBytes maxFiles).2.1 ++
                (cleanupLogsMarks files cutoff maxSizeBytes maxFiles).2.2).contains f))).map
              (·.size)).sum
            ≤ 5 * (((remainingAfter (ageMarks cutoff (sortByMtime files))
                (sortByMtime files)).drop k).map (·.size)).sum :=
          Nat.mul_le_mul_left 5 hle
        _ ≤ 4 * maxSizeBytes := hsum
  · have hd2 : (cleanupLogsMarks files cutoff maxSizeBytes maxFiles).2.1 = [] := by
      show logsSizeMarks maxSizeBytes (sortByMtime files)
          (ageMarks cutoff (sortByMtime files)) = []
      unfold logsSizeMarks
      rw [if_neg htrig]
    refine ⟨fun hne => absurd hd2 hne, ⟨0, by rw [hd2, List.take_zero]⟩, ?_,
      fun ht => absurd ht htrig⟩
    intro f hf
    rw [hd2] at hf
    cases hf

theorem claim_C2_cex :
    (cleanupLogsMarks [demoOld, demoNew] demoCutoff 10 100).2.1 = [demoNew] ∧
    ((remainingAfter (ageMarks demoCutoff (sortByMtime [demoOld, demoNew]))
        (sortByMtime [demoOld, demoNew])).map (·.size)).sum ≤ 10 := by
  decide

theorem claim_C2_witness :
    ([demoOld, demoNew] : List LFile).Nodup ∧
    (∃ k, (cleanupLogsMarks [demoOld, demoNew] demoCutoff 10 100).2.1 =
      (remainingAfter (ageMarks demoCutoff (sortByMtime [demoOld, demoNew]))
        (sortByMtime [demoOld, demoNew])).take k) :=
  ⟨by decide,
   (claim_C2_size_stage [demoOld, demoNew] demoCutoff 10 100 (by decide)).2.1⟩

/-- C7 (amended): the library `cleanup_logs` and the CLI `cleanup` share
the age stage, the size-stage marking loop and the count stage, but their
size-stage triggers differ — the library compares the byte total of all
files against the limit, the CLI only the total of the files the age
stage left unmarked. Whenever the two trigger conditions agree (for
instance when the age stage marks nothing), the two functions select
exactly the same candidate sets. -/
theorem claim_C7_library_cli_agree (files : List LFile) (cutoff : List Char)
    (maxSizeBytes maxFiles : Nat)
    (h : ((sortByMtime files).map (·.size)).sum > maxSizeBytes ↔
      ((remainingAfter (ageMarks cutoff (sortByMtime files))
          (sortByMtime files)).map (·.size)).sum > maxSizeBytes) :
    cleanupLogsMarks files cutoff maxSizeBytes maxFiles =
      cleanupCliMarks files cutoff maxSizeBytes maxFiles := by
  have h2 : logsSizeMarks maxSizeBytes (sortByMtime files)
        (ageMarks cutoff (sortByMtime files)) =
      cliSizeMarks maxSizeBytes (sortByMtime files)
        (ageMarks cutoff (sortByMtime files)) := by
    unfold logsSizeMarks cliSizeMarks
    by_cases hc : ((remainingAfter (ageMarks cutoff (sortByMtime files))
        (sortByMtime files)).map (·.size)).sum > maxSizeBytes
    · rw [if_pos (h.mpr hc), if_pos hc]
    · rw [if_neg (fun hh => hc (h.mp hh)), if_neg hc]
  unfold cleanupLogsMarks cleanupCliMarks
  rw [h2]

theorem claim_C7_cex :
    cleanupLogsMarks [demoOld, demoNew] demoCutoff 10 100 ≠
      cleanupCliMarks [demoOld, demoNew] demoCutoff 10 100 := by
  decide

theorem claim_C7_witness :
    ((((sortByMtime [demoNew]).map (·.size)).sum > 10) ↔
      (((remainingAfter (ageMarks demoCutoff (sortByMtime [demoNew]))
          (sortByMtime [demoNew])).map (·.size)).sum > 10)) ∧
    cleanupLogsMarks [demoNew] demoCutoff 10 100 =
      cleanupCliMarks [demoNew] demoCutoff 10 100 :=
  ⟨by decide, claim_C7_library_cli_agree [demoNew] demoCutoff 10 100 (by decide)⟩

theorem cleanupLogsRun_real_eq (files : List LFile) (cutoff : List Char)
    (maxSizeBytes maxFiles : Nat) (failing : LFile → Bool) :
    cleanupLogsRun files cutoff maxSizeBytes maxFiles false failing =
      (files.filter (fun f =>
        !(((cleanupLogsCandidates files cutoff maxSizeBytes maxFiles).filter
            (fun g => !(failing g))).contains f)),
       ((cleanupLogsCandidates files cutoff maxSizeBytes maxFiles).filter
          (fun g => !(failing g))).length,
       ((cleanupLogsCandidates files cutoff maxSizeBytes maxFiles).map
         (·.size)).sum) := rfl

/-- C8 (amended): during a non-dry-run retention pass a failing unlink
never aborts the batch — every other candidate is still deleted and every
non-candidate survives — and the failing file is excluded from the
success count and remains in the store; but its size IS still included in
the reported freed bytes, which the source computes over the whole
candidate set before any deletion. -/
theorem claim_C8_deletion_best_effort (files : List LFile) (cutoff : List Char)
    (maxSizeBytes maxFiles : Nat) (failing : LFile → Bool) :
    (cleanupLogsRun files cutoff maxSizeBytes maxFiles false failing).2.1 =
      ((cleanupLogsCandidates files cutoff maxSizeBytes maxFiles).filter
        (fun g => !(failing g))).length ∧
    (∀ f ∈ cleanupLogsCandidates files cutoff maxSizeBytes maxFiles,
      failing f = false →
        f ∉ (cleanupLogsRun files cutoff maxSizeBytes maxFiles false failing).1) ∧
    (∀ f ∈ files,
      f ∉ cleanupLogsCandidates files cutoff maxSizeBytes maxFiles →
        f ∈ (cleanupLogsRun files cutoff maxSizeBytes maxFiles false failing).1) ∧
    (∀ f ∈ files, failing f = true →
      f ∈ (cleanupLogsRun files cutoff maxSizeBytes maxFiles false failing).1) ∧
    (cleanupLogsRun files cutoff maxSizeBytes maxFiles false failing).2.2 =
      ((cleanupLogsCandidates files cutoff maxSizeBytes maxFiles).map
        (·.size)).sum := by
  rw [cleanupLogsRun_real_eq]
  refine ⟨rfl, ?_, ?_, ?_, rfl⟩
  · intro f hf hnf hcontra
    have hmf : f ∈ (cleanupLogsCandidates files cutoff maxSizeBytes maxFiles).filter
        (fun g => !(failing g)) :=
      List.mem_filter.mpr ⟨hf, by rw [hnf]; rfl⟩
    have := (List.mem_filter.mp hcontra).2
    rw [lfile_contains_eq, Bool.not_eq_true', decide_eq_false_iff_not] at this
    exact this hmf
  · intro f hf hnc
    apply List.mem_filter.mpr
    refine ⟨hf, ?_⟩
    rw [lfile_contains_eq, Bool.not_eq_true', decide_eq_false_iff_not]
    intro hmem
    exact hnc ((List.filter_sublist _).subset hmem)
  · intro f hf hfail
    apply List.mem_filter.mpr
    refine ⟨hf, ?_⟩
    rw [lfile_contains_eq, Bool.not_eq_true', decide_eq_false_iff_not]
    intro hmem
    have := (List.mem_filter.mp hmem).2
    rw [hfail] at this
    cases this

theorem claim_C8_cex :
    (cleanupLogsRun [demoOld] demoCutoff 1000000 100 false
      (fun _ => true)).2.2 = 100 ∧
    (cleanupLogsRun [demoOld] demoCutoff 1000000 100 false
      (fun _ => true)).2.1 = 0 ∧
    (cleanupLogsRun [demoOld] demoCutoff 1000000 100 false
      (fun _ => true)).1 = [demoOld] := by
  decide

theorem claim_C8_witness :
    demoOld ∈ ([demoOld] : List LFile) ∧
    (fun _ : LFile => true) demoOld = true ∧
    demoOld ∈ (cleanupLogsRun [demoOld] demoCutoff 1000000 100 false
      (fun _ => true)).1 :=
  ⟨by decide, rfl,
   (claim_C8_deletion_best_effort [demoOld] demoCutoff 1000000 100
     (fun _ => true)).2.2.2.1 demoOld (by decide) rfl⟩
